import Mathlib

/-!
Shallow embedding of the pi-image-builder repository (Go) for checking its
natural-language specification.  Go byte slices and strings are modelled as
`List Char`, Go `int` as `Int` (with the `strconv.Atoi` range check made
explicit), fallible Go functions as `Except String`.  External effects
(subprocesses, the network, the host filesystem) are passed in explicitly as
parameters or as explicit state.
-/

namespace PiImage

/-- Go byte slices / strings, modelled as lists of characters. -/
abbrev Bytes := List Char

/-! ### `bytes.Split` (Go standard library)

`bytes.Split(s, sep)` for a non-empty separator `sep = c :: cs`: scan left to
right, cutting at each non-overlapping occurrence of the separator.  The code
under verification only ever splits on the non-empty separators `"\n"`,
`" *"` and `":"`. -/

/-- Does `sep` occur as a contiguous subsequence of `s`?  (Go
`bytes.Contains`, used only in specifications/hypotheses.) -/
def containsSeq (sep : Bytes) : Bytes → Bool
  | [] => sep.isEmpty
  | x :: xs => sep.isPrefixOf (x :: xs) || containsSeq sep xs

/-- Prepend a character to the first piece of a split result. -/
def consHead (c : Char) : List Bytes → List Bytes
  | [] => [[c]]
  | p :: ps => (c :: p) :: ps

/-- Go `bytes.Split s sep` for a single-character separator `sep`: cut `s`
at every occurrence of `sep`.  `Split` of the empty slice is `[""]`. -/
def splitOnChar (sep : Char) : Bytes → List Bytes
  | [] => [[]]
  | c :: rest =>
    if c = sep then [] :: splitOnChar sep rest
    else consHead c (splitOnChar sep rest)

/-- Go `bytes.Split s []byte(" *")`: cut `s` at every (non-overlapping,
leftmost-first) occurrence of the two-byte separator `" *"`.  Because the two
separator bytes differ, occurrences cannot overlap and the scan direction
does not matter. -/
def splitOnSpaceStar : Bytes → List Bytes
  | [] => [[]]
  | [c] => [[c]]
  | c1 :: c2 :: rest =>
    if c1 = ' ' ∧ c2 = '*' then [] :: splitOnSpaceStar rest
    else consHead c1 (splitOnSpaceStar (c2 :: rest))

/-! ### Go standard-library helpers used by `partition/partition.go` -/

/-- Go `strings.TrimSuffix s suffix`: drop `suffix` from the end of `s` when
present, otherwise return `s` unchanged. -/
def trimSuffix (s suffix : Bytes) : Bytes :=
  if suffix.isSuffixOf s then s.take (s.length - suffix.length) else s

/-- Largest Go `int64` value. -/
def int64Max : Int := 9223372036854775807

/-- Smallest Go `int64` value. -/
def int64Min : Int := -9223372036854775808

/-- Go `int64` two's-complement wrap-around: the result of an `int64`
arithmetic operation whose mathematical value is `x`.  (Go `int` is 64 bits
on the target platforms.) -/
def int64Wrap (x : Int) : Int :=
  (x + 9223372036854775808) % 18446744073709551616 - 9223372036854775808

/-- Worker for `goAtoi`: accumulate decimal digits; any non-digit character
is a syntax error (`none`). -/
def decDigitsAux (acc : Nat) : List Char → Option Nat
  | [] => some acc
  | c :: rest =>
    if c.isDigit then decDigitsAux (acc * 10 + (c.toNat - '0'.toNat)) rest
    else none

/-- Go `strconv.Atoi`: optional sign, then one or more decimal digits; the
value must fit in `int64` (out-of-range input is an error, modelled `none`). -/
def goAtoi (s : Bytes) : Option Int :=
  match s with
  | [] => none
  | '+' :: ds =>
    if ds = [] then none
    else (decDigitsAux 0 ds).bind fun n =>
      if (n : Int) > int64Max then none else some (n : Int)
  | '-' :: ds =>
    if ds = [] then none
    else (decDigitsAux 0 ds).bind fun n =>
      if -(n : Int) < int64Min then none else some (-(n : Int))
  | ds =>
    (decDigitsAux 0 ds).bind fun n =>
      if (n : Int) > int64Max then none else some (n : Int)

namespace Partition

/-! ### `partition/partition.go` (current revision: the one defining
`GetLogicalVolumeSizes` and the three logical volumes) -/

/-- Unit flag for bytes as passed to `vgs --units` (`lvmBytes` in the source). -/
def lvmBytes : Bytes := "B".data

/-- `byteToMebibyteFactor`: 1024² to go from bytes to mebibytes. -/
def byteToMebibyteFactor : Int := 1024 * 1024

/-- `byteToGibibyteFactor`. -/
def byteToGibibyteFactor : Int := byteToMebibyteFactor * 1024

/-- One row of `vgs --reportformat json` output (`VolumeGroupEntry`).  All
fields are strings in the JSON report, exactly as in the Go struct. -/
structure VolumeGroupEntry where
  Name : String
  PvCount : String
  LvCount : String
  SnapCount : String
  VGAttribute : String
  VGSize : String
  VGFree : String
deriving Repr, DecidableEq

/-- `GetLogicalVolumeSizes` from `partition/partition.go`: parse `VGFree`
(trimming the `B` unit suffix), subtract the 2 × 256 MiB reserve, fix the
root volume at 10 GiB and the containerd volume at 30 GiB, give the rest to
the CSI volume, and fail when the CSI volume would be under 5 GiB.  Every
subtraction is Go `int` (64-bit) arithmetic, so it wraps on underflow
(`int64Wrap`); the constants themselves are in range.  Returns
`(rootSize, CSISize, containerdSize)` in the Go result order. -/
def GetLogicalVolumeSizes (entry : VolumeGroupEntry) :
    Except String (Int × Int × Int) :=
  let initialSize := trimSuffix entry.VGFree.data lvmBytes
  match goAtoi initialSize with
  | none => Except.error "strconv.Atoi: invalid syntax or out of range"
  | some parsedSize =>
    let availableSize := int64Wrap (parsedSize - (2 * 256 * byteToMebibyteFactor))
    let rootSize := 10 * byteToGibibyteFactor
    let containerdSize := 30 * byteToGibibyteFactor
    let CSISize := int64Wrap (int64Wrap (availableSize - rootSize) - containerdSize)
    if CSISize < 5 * byteToGibibyteFactor then
      Except.error
        ("volumegroups: " ++ entry.Name ++
          " does not have enough capacity for csi storage")
    else
      Except.ok (rootSize, CSISize, containerdSize)

/-- One entry of parsed `parted -j` output (`PartitionEntry` in the source). -/
structure PartedPartition where
  End : String
  Filesystem : String
  Flags : List String
  Number : Int
  Size : String
  Start : String
  Typ : String
deriving Repr, DecidableEq

/-- Go `len` on a possibly-nil slice (`nil` has length 0). -/
def goLen : Option (List α) → Nat
  | none => 0
  | some l => l.length

/-- `CreateTable` from `partition/partition.go` (current revision).  The
parse of `parted -j <device> unit MiB print` (`GetPartitionTable`) and the
outcomes of the four `parted` subcommands are passed in explicitly; `.none`
models a JSON report with no `partitions` key (a nil slice).  The guard is
`len(currentTable.Disk.Partitions) != 0`. -/
def CreateTable (device : String)
    (tableRes : Except String (Option (List PartedPartition)))
    (mktable mkboot mkroot setlvm : Except String Unit) :
    Except String Unit :=
  match tableRes with
  | Except.error e => Except.error e
  | Except.ok currentTable =>
    if goLen currentTable ≠ 0 then
      Except.error
        ("device: " ++ device ++ " does not have an empty partition table")
    else
      match mktable with
      | Except.error e => Except.error e
      | Except.ok _ =>
        match mkboot with
        | Except.error e => Except.error e
        | Except.ok _ =>
          match mkroot with
          | Except.error e => Except.error e
          | Except.ok _ =>
            match setlvm with
            | Except.error e => Except.error e
            | Except.ok _ => Except.ok ()

end Partition

namespace Media

/-! ### `media/download.go`: checksum-file parsing -/

/-- A Go `map[string][]byte`, modelled as an insertion-ordered association
list with unique keys (maintained by `mapInsert`). -/
abbrev GoMap := List (Bytes × Bytes)

/-- Go map assignment `m[k] = v`: overwrite the entry for `k` if present,
otherwise add a new one. -/
def mapInsert : GoMap → Bytes → Bytes → GoMap
  | [], k, v => [(k, v)]
  | (k', v') :: rest, k, v =>
    if k' = k then (k', v) :: rest else (k', v') :: mapInsert rest k v

/-- The loop of `extractChecksum`: walk the lines obtained from splitting on
`"\n"`, stop at the first empty line, reject any line that does not split
into exactly two fields on `" *"`, and record `filename ↦ hash`
(`sums[string(lineSplit[1])] = lineSplit[0]`). -/
def extractLoop : List Bytes → GoMap → Except String GoMap
  | [], sums => Except.ok sums
  | line :: rest, sums =>
    if line = [] then Except.ok sums
    else
      match splitOnSpaceStar line with
      | [h, f] => extractLoop rest (mapInsert sums f h)
      | _ => Except.error "length mismatch check file format"

/-- `extractChecksum` from `media/download.go`: split the checksum file on
newlines and run the parsing loop with an initially empty map. -/
def extractChecksum (fileBytes : Bytes) : Except String GoMap :=
  extractLoop (splitOnChar '\n' fileBytes) []

/-- A hash/filename pair that forms a well-formed checksum line: neither
component contains a newline or the field separator `" *"`. -/
def wfLine (p : Bytes × Bytes) : Prop :=
  '\n' ∉ p.1 ∧ '\n' ∉ p.2 ∧
    containsSeq [' ', '*'] p.1 = false ∧ containsSeq [' ', '*'] p.2 = false

instance (p : Bytes × Bytes) : Decidable (wfLine p) := by
  unfold wfLine
  infer_instance

/-- The body (sans terminating newline) of the checksum line for `(h, f)`:
`h ++ " *" ++ f`. -/
def checksumLine (p : Bytes × Bytes) : Bytes := p.1 ++ ' ' :: '*' :: p.2

/-- A checksum file laid out as one line per pair, each line terminated by a
newline (so the file ends with a trailing blank line). -/
def joinChecksumLines : List (Bytes × Bytes) → Bytes
  | [] => []
  | p :: ps => checksumLine p ++ '\n' :: joinChecksumLines ps

/-! ### `media/download.go`: hash validation and media acquisition -/

/-- `ValidateHashes` from `media/download.go`.  The SHA-256 digest plus hex
encoding is an external crypto primitive, passed in as `hashHex`.  A missing
map key reads as the zero value `nil` (empty bytes) in Go. -/
def ValidateHashes (hashHex : Bytes → Bytes) (fileName : Bytes)
    (mediaBytes checksumBytes : Bytes) : Except String Unit :=
  let mediaHash := hashHex mediaBytes
  match extractChecksum checksumBytes with
  | Except.error e => Except.error e
  | Except.ok checksums =>
    if mediaHash = (List.lookup fileName checksums).getD [] then Except.ok ()
    else Except.error "checksums do not match"

/-- The afero filesystem, modelled as an association list from path to file
content. -/
abbrev FileSys := List (String × Bytes)

/-- `fileSystem.Stat(name)` succeeding (no `fs.ErrNotExist`). -/
def fsExists (fs : FileSys) (name : String) : Bool :=
  (fs.lookup name).isSome

/-- `afero.ReadFile`. -/
def fsRead (fs : FileSys) (name : String) : Except String Bytes :=
  match fs.lookup name with
  | some c => Except.ok c
  | none => Except.error ("open " ++ name ++ ": file does not exist")

/-- Writing a whole file (`OpenFile` with `O_CREATE|O_TRUNC` plus `io.Copy`,
as `DownloadFile` does). -/
def fsWrite : FileSys → String → Bytes → FileSys
  | [], n, c => [(n, c)]
  | (n', c') :: rest, n, c =>
    if n' = n then (n', c) :: rest else (n', c') :: fsWrite rest n c

/-- `ImageName` from `media/download.go`. -/
def ImageName : String := "ubuntu-20.04.4-preinstalled-server-arm64+raspi.img.xz"

/-- The checksum file name (`checksumName` local in the source). -/
def checksumName : String := "SHA256SUMS"

/-- Result of `DownloadAndVerifyMedia`: the filesystem afterwards, the files
that were downloaded (in download order), and the returned error if any. -/
structure DownloadOutcome where
  fs : FileSys
  downloaded : List String
  result : Except String Unit

/-- `DownloadAndVerifyMedia` from `media/download.go`.  The two errgroup
goroutines touch distinct files, so they are modelled sequentially (media
first).  `net name` is the body a successful download of `name` would
deliver (the URL is a fixed function of the name); download transport errors
are not modelled.  Each file is downloaded exactly when `forceOverwrite` is
set or its `Stat` reported `fs.ErrNotExist`; afterwards both files are read
back and validated. -/
def DownloadAndVerifyMedia (hashHex : Bytes → Bytes) (net : String → Bytes)
    (fileSystem : FileSys) (forceOverwrite : Bool) : DownloadOutcome :=
  let mediaExists := fsExists fileSystem ImageName
  let checksumExists := fsExists fileSystem checksumName
  let step1 :=
    if forceOverwrite || !mediaExists then
      (fsWrite fileSystem ImageName (net ImageName), [ImageName])
    else (fileSystem, [])
  let step2 :=
    if forceOverwrite || !checksumExists then
      (fsWrite step1.1 checksumName (net checksumName),
        step1.2 ++ [checksumName])
    else step1
  match fsRead step2.1 ImageName with
  | Except.error e => ⟨step2.1, step2.2, Except.error e⟩
  | Except.ok media =>
    match fsRead step2.1 checksumName with
    | Except.error e => ⟨step2.1, step2.2, Except.error e⟩
    | Except.ok checksum =>
      ⟨step2.1, step2.2, ValidateHashes hashHex ImageName.data media checksum⟩

/-! ### `media/file.go`: image growth -/

/-- `expectedSize = 4 * datasize.GB` (the datasize library uses binary
units: `GB = 1 << 30`). -/
def expectedSize : Nat := 4 * 1073741824

/-- `bufferSize = datasize.MB * 1000` (`MB = 1 << 20`). -/
def expandBuffer : Nat := 1000 * 1048576

/-- Result of `ExpandSize`: the backing file's size afterwards and whether
the file was modified (truncated upward). -/
structure ExpandOutcome where
  size : Nat
  modified : Bool
deriving Repr, DecidableEq

/-- `ExpandSize` from `media/file.go`: skip when the file is already larger
than `expectedSize`, otherwise truncate (extend with zeros) to
`bufferSize + info.Size()`. -/
def ExpandSize (size : Nat) : ExpandOutcome :=
  if size > expectedSize then ⟨size, false⟩
  else ⟨expandBuffer + size, true⟩

/-! ### `media/file.go`: partition/filesystem expansion (`FileSystemExpansion`)
and `parsePartedOutput` -/

/-- `PartitionEntry` from `media/file.go`.  `datasize.ByteSize` is `uint64`;
`Number` keeps the value produced by `strconv.Atoi`. -/
structure MediaPartitionEntry where
  Number : Int
  Start : Nat
  End : Nat
  Size : Nat
  FileSystem : Bytes
deriving Repr, DecidableEq

instance : Inhabited MediaPartitionEntry := ⟨⟨0, 0, 0, 0, []⟩⟩

/-- `parsePartedOutput` from `media/file.go`: scan the machine-readable
`parted` output line by line; on the first 7-field line whose filesystem
field is `ext4`, parse the partition number and the three sizes and return
the entry; if no line matches, return the zero entry without error.
`datasize.Parse` is an external library routine, passed in as
`datasizeParse`. -/
def parsePartedOutput (datasizeParse : Bytes → Except String Nat) :
    List Bytes → Except String MediaPartitionEntry
  | [] => Except.ok default
  | line :: rest =>
    match splitOnChar ':' line with
    | [f0, f1, f2, f3, f4, _, _] =>
      if f4 = "ext4".data then
        match goAtoi f0 with
        | none => Except.error "strconv.Atoi: invalid syntax or out of range"
        | some number =>
          match datasizeParse f1 with
          | Except.error e => Except.error e
          | Except.ok start =>
            match datasizeParse f2 with
            | Except.error e => Except.error e
            | Except.ok end_ =>
              match datasizeParse f3 with
              | Except.error e => Except.error e
              | Except.ok size =>
                Except.ok ⟨number, start, end_, size, f4⟩
      else parsePartedOutput datasizeParse rest
    | _ => parsePartedOutput datasizeParse rest

/-- The environment of `FileSystemExpansion`: outcome of each external step,
in program order. -/
structure ExpansionEnv where
  pipeCreate : Except String Unit
  start : Except String Unit
  readAll : Except String Bytes
  wait : Except String Unit
  datasizeParse : Bytes → Except String Nat
  resizePart : Except String Unit
  fsCheck : Except String Unit
  resizeFS : Except String Unit

/-- `FileSystemExpansion` from `media/file.go`, line for line.  The four
partition-listing steps return the literal `nil` (success) in their error
branches in the source — reproduced faithfully here as `Except.ok ()`. -/
def FileSystemExpansion (env : ExpansionEnv) : Except String Unit :=
  match env.pipeCreate with
  | Except.error _ => Except.ok ()   -- source: `return nil`, not the error
  | Except.ok _ =>
  match env.start with
  | Except.error _ => Except.ok ()   -- source: `return nil`, not the error
  | Except.ok _ =>
  match env.readAll with
  | Except.error _ => Except.ok ()   -- source: `return nil`, not the error
  | Except.ok partitions =>
  match env.wait with
  | Except.error _ => Except.ok ()   -- source: `return nil`, not the error
  | Except.ok _ =>
  match parsePartedOutput env.datasizeParse (splitOnChar '\n' partitions) with
  | Except.error e => Except.error e
  | Except.ok _ =>
    match env.resizePart with
    | Except.error e => Except.error e
    | Except.ok _ =>
      match env.fsCheck with
      | Except.error e => Except.error e
      | Except.ok _ =>
        match env.resizeFS with
        | Except.error e => Except.error e
        | Except.ok _ => Except.ok ()

/-! ### `media/file.go`: mount session (`MountImageToDevice`,
`AttachToMountPoint`, `CleanupAndCompress`) -/

/-- The state of one filesystem path in the guest image. -/
inductive FsNode
  | symlink (target : String)
  | file (content : Bytes)
  | absent
deriving Repr, DecidableEq

/-- The externally visible actions of a mount session, one per relevant call
in the source. -/
inductive MountAction
  | attachLoop | mountRoot | mountBoot | symlinkBackup | removeResolv
  | writeResolv | symlinkResolv | removeBackup | umountBoot | umountRoot
  | detachLoop
deriving Repr, DecidableEq

/-- The parts of the session state the mount claims are about:
`./mnt/etc/resolv.conf`, `./mnt/etc/resolve.conf.bak`, the two mounts and
the loop device. -/
structure GuestState where
  resolv : FsNode
  backup : FsNode
  rootMounted : Bool
  bootMounted : Bool
  loopAttached : Bool
deriving Repr, DecidableEq

/-- The symlink target `../run/systemd/resolve/stub-resolv.conf` hard-coded
in both `AttachToMountPoint` and `CleanupAndCompress`. -/
def stubResolvTarget : String := "../run/systemd/resolve/stub-resolv.conf"

/-- `MountImageToDevice` from `media/file.go`: `losetup -Pf` attaches the
backing file to a loop device; the subsequent `losetup -lJ` listing is
read-only. -/
def MountImageToDevice (s : GuestState) : GuestState × List MountAction :=
  ({ s with loopAttached := true }, [MountAction.attachLoop])

/-- `AttachToMountPoint` from `media/file.go`: create the mount point
directories (`MkdirAll`, no modelled effect), mount partition 2 at `./mnt`
and partition 1 at `./mnt/boot/firmware`, create the backup symlink
(`os.Symlink` fails when the path exists), then replace the guest resolver
config with a copy of the host `/etc/resolv.conf` (`hostResolv`, whose
`Stat`/`ReadFile` are assumed to succeed): `Remove` (fails when absent) then
`WriteFile`. -/
def AttachToMountPoint (hostResolv : Bytes) (s : GuestState) :
    Except String (GuestState × List MountAction) :=
  let s1 := { s with rootMounted := true }
  let s2 := { s1 with bootMounted := true }
  match s2.backup with
  | FsNode.absent =>
    let s3 := { s2 with backup := FsNode.symlink stubResolvTarget }
    if s3.resolv = FsNode.absent then
      Except.error "remove ./mnt/etc/resolv.conf: no such file or directory"
    else
      Except.ok ({ s3 with resolv := FsNode.file hostResolv },
        [MountAction.mountRoot, MountAction.mountBoot,
          MountAction.symlinkBackup, MountAction.removeResolv,
          MountAction.writeResolv])
  | _ => Except.error "symlink ./mnt/etc/resolve.conf.bak: file exists"

/-- The teardown prefix of `CleanupAndCompress` from `media/file.go`:
remove the substituted resolver config (fails when absent), recreate the
stock symlink, remove the backup symlink (fails when absent), unmount boot,
unmount root, detach the loop device.  The subsequent rename and zstd
compression do not touch the session state and are omitted. -/
def CleanupAndCompress (s : GuestState) :
    Except String (GuestState × List MountAction) :=
  if s.resolv = FsNode.absent then
    Except.error "remove ./mnt/etc/resolv.conf: no such file or directory"
  else
    let s2 := { s with resolv := FsNode.symlink stubResolvTarget }
    if s2.backup = FsNode.absent then
      Except.error "remove ./mnt/etc/resolve.conf.bak: no such file or directory"
    else
      Except.ok
        ({ s2 with
            backup := FsNode.absent
            bootMounted := false
            rootMounted := false
            loopAttached := false },
        [MountAction.removeResolv, MountAction.symlinkResolv,
          MountAction.removeBackup, MountAction.umountBoot,
          MountAction.umountRoot, MountAction.detachLoop])

/-- The resource a session action acquires, if any. -/
inductive Resource
  | loopDevice | rootMount | bootMount | resolverConfig
deriving Repr, DecidableEq

/-- Resource acquisitions during attach. -/
def acquires : MountAction → Option Resource
  | MountAction.attachLoop => some Resource.loopDevice
  | MountAction.mountRoot => some Resource.rootMount
  | MountAction.mountBoot => some Resource.bootMount
  | MountAction.writeResolv => some Resource.resolverConfig
  | _ => none

/-- Resource releases during teardown. -/
def releases : MountAction → Option Resource
  | MountAction.detachLoop => some Resource.loopDevice
  | MountAction.umountRoot => some Resource.rootMount
  | MountAction.umountBoot => some Resource.bootMount
  | MountAction.symlinkResolv => some Resource.resolverConfig
  | _ => none

end Media

namespace Configure

/-! ### `IdempotentWrite` (configure package, current revision): read the
incoming bytes, open the target with `O_CREATE|O_RDWR` (creating an empty
file when absent, never truncating), read the current content — which
leaves the file offset at end-of-file — skip when the contents are equal,
otherwise `Write` the incoming bytes at the current offset, i.e. after the
existing content. -/

/-- Result of `IdempotentWrite`: the file's content afterwards and whether a
write syscall was performed. -/
structure WriteOutcome where
  content : Bytes
  wrote : Bool
deriving Repr, DecidableEq

/-- `IdempotentWrite` (current revision, `configure` package). -/
def IdempotentWrite (existing : Option Bytes) (incoming : Bytes) :
    WriteOutcome :=
  let current := existing.getD []
  if incoming = current then ⟨current, false⟩
  else ⟨current ++ incoming, true⟩

end Configure

/-! ## Lemmas about the embedded definitions -/

/-- A list not containing the separator character is a single piece. -/
theorem splitOnChar_no_sep (sep : Char) :
    ∀ s : Bytes, sep ∉ s → splitOnChar sep s = [s] := by
  intro s
  induction s with
  | nil => intro _; rfl
  | cons x xs ih =>
    intro h
    have hx : x ≠ sep := fun hxs => h (hxs ▸ List.mem_cons_self x xs)
    have hxs : sep ∉ xs := fun hmem => h (List.mem_cons_of_mem x hmem)
    simp [splitOnChar, hx, ih hxs, consHead]

/-- Splitting `line ++ sep :: rest` cuts exactly at the shown separator when
`line` itself is separator-free. -/
theorem splitOnChar_append (sep : Char) :
    ∀ (line rest : Bytes), sep ∉ line →
      splitOnChar sep (line ++ sep :: rest) = line :: splitOnChar sep rest := by
  intro line
  induction line with
  | nil => intro rest _; simp [splitOnChar]
  | cons x xs ih =>
    intro rest h
    have hx : x ≠ sep := fun hxs => h (hxs ▸ List.mem_cons_self x xs)
    have hxs : sep ∉ xs := fun hmem => h (List.mem_cons_of_mem x hmem)
    have e1 : splitOnChar sep ((x :: xs) ++ sep :: rest) =
        consHead x (splitOnChar sep (xs ++ sep :: rest)) := by
      simp [splitOnChar, hx]
    rw [e1, ih rest hxs]
    rfl

/-- If `" *"` is not a prefix of `x :: y :: ys` then not both `x = ' '` and
`y = '*'`. -/
theorem spaceStar_not_head (x y : Char) (ys : Bytes)
    (hpre : [' ', '*'].isPrefixOf (x :: y :: ys) = false) :
    ¬(x = ' ' ∧ y = '*') := by
  intro hxy
  obtain ⟨hx, hy⟩ := hxy
  subst hx
  subst hy
  simp [List.isPrefixOf] at hpre

/-- A list with no occurrence of `" *"` is a single piece. -/
theorem splitOnSpaceStar_no_sep :
    ∀ s : Bytes, containsSeq [' ', '*'] s = false → splitOnSpaceStar s = [s] := by
  intro s
  induction s with
  | nil => intro _; rfl
  | cons x xs ih =>
    intro h
    simp only [containsSeq, Bool.or_eq_false_iff] at h
    obtain ⟨hpre, hrest⟩ := h
    cases xs with
    | nil => rfl
    | cons y ys =>
      have hxy := spaceStar_not_head x y ys hpre
      have e1 : splitOnSpaceStar (x :: y :: ys) =
          consHead x (splitOnSpaceStar (y :: ys)) := by
        simp only [splitOnSpaceStar, if_neg hxy]
      rw [e1, ih hrest]
      rfl

/-- Splitting `h ++ " *" ++ f` cuts exactly at the shown separator when `h`
is free of `" *"`. -/
theorem splitOnSpaceStar_append :
    ∀ (h f : Bytes), containsSeq [' ', '*'] h = false →
      splitOnSpaceStar (h ++ ' ' :: '*' :: f) = h :: splitOnSpaceStar f := by
  intro h
  induction h with
  | nil => intro f _; simp [splitOnSpaceStar]
  | cons x xs ih =>
    intro f hfree
    simp only [containsSeq, Bool.or_eq_false_iff] at hfree
    obtain ⟨hpre, hrest⟩ := hfree
    cases xs with
    | nil =>
      have hxy : ¬(x = ' ' ∧ ' ' = '*') := by
        intro hc
        exact absurd hc.2 (by decide)
      have e1 : splitOnSpaceStar ([x] ++ ' ' :: '*' :: f) =
          consHead x (splitOnSpaceStar (' ' :: '*' :: f)) := by
        simp only [List.cons_append, List.nil_append, splitOnSpaceStar,
          if_neg hxy]
      have e2 : splitOnSpaceStar (' ' :: '*' :: f) = [] :: splitOnSpaceStar f := by
        simp [splitOnSpaceStar]
      rw [e1, e2]
      rfl
    | cons y ys =>
      have hxy := spaceStar_not_head x y ys hpre
      have step := ih f hrest
      have e1 : splitOnSpaceStar ((x :: y :: ys) ++ ' ' :: '*' :: f) =
          consHead x (splitOnSpaceStar ((y :: ys) ++ ' ' :: '*' :: f)) := by
        simp only [List.cons_append, splitOnSpaceStar, if_neg hxy]
        rfl
      rw [e1, step]
      rfl

/-- Splitting a well-formed checksum line `h ++ " *" ++ f` yields exactly the
two fields `[h, f]`. -/
theorem splitOnSpaceStar_line (h f : Bytes)
    (hh : containsSeq [' ', '*'] h = false)
    (hf : containsSeq [' ', '*'] f = false) :
    splitOnSpaceStar (h ++ ' ' :: '*' :: f) = [h, f] := by
  rw [splitOnSpaceStar_append h f hh, splitOnSpaceStar_no_sep f hf]

namespace Media

/-- Fold `mapInsert` over a list of `(hash, filename)` pairs, keyed by
filename. -/
def insertAll (sums : GoMap) (ps : List (Bytes × Bytes)) : GoMap :=
  ps.foldl (fun m p => mapInsert m p.2 p.1) sums

theorem checksumLine_ne_nil (p : Bytes × Bytes) : checksumLine p ≠ [] := by
  unfold checksumLine
  intro hc
  exact absurd (List.append_eq_nil.mp hc).2 (by simp)

theorem checksumLine_no_newline (p : Bytes × Bytes) (hp : wfLine p) :
    '\n' ∉ checksumLine p := by
  obtain ⟨h1, h2, _, _⟩ := hp
  unfold checksumLine
  intro hmem
  rcases List.mem_append.mp hmem with hl | hr
  · exact h1 hl
  · simp only [List.mem_cons] at hr
    rcases hr with hsp | hst | hin
    · exact absurd hsp (by decide)
    · exact absurd hst (by decide)
    · exact h2 hin

/-- Splitting the concatenation of well-formed lines and a suffix on
newlines yields the line bodies followed by the split of the suffix. -/
theorem splitOnChar_join (ps : List (Bytes × Bytes)) (suffix : Bytes)
    (hwf : ∀ p ∈ ps, wfLine p) :
    splitOnChar '\n' (joinChecksumLines ps ++ suffix) =
      ps.map checksumLine ++ splitOnChar '\n' suffix := by
  induction ps with
  | nil => simp [joinChecksumLines]
  | cons p ps ih =>
    have hp := hwf p (List.mem_cons_self p ps)
    have hps : ∀ q ∈ ps, wfLine q := fun q hq => hwf q (List.mem_cons_of_mem p hq)
    calc splitOnChar '\n' (joinChecksumLines (p :: ps) ++ suffix)
        = splitOnChar '\n'
            (checksumLine p ++ '\n' :: (joinChecksumLines ps ++ suffix)) := by
          simp [joinChecksumLines]
      _ = checksumLine p :: splitOnChar '\n' (joinChecksumLines ps ++ suffix) :=
          splitOnChar_append '\n' (checksumLine p)
            (joinChecksumLines ps ++ suffix) (checksumLine_no_newline p hp)
      _ = (p :: ps).map checksumLine ++ splitOnChar '\n' suffix := by
          rw [ih hps]
          simp

/-- Processing the well-formed line bodies accumulates their entries and
continues with the remaining lines. -/
theorem extractLoop_good (ps : List (Bytes × Bytes)) :
    ∀ (restLines : List Bytes) (sums : GoMap), (∀ p ∈ ps, wfLine p) →
      extractLoop (ps.map checksumLine ++ restLines) sums =
        extractLoop restLines (insertAll sums ps) := by
  induction ps with
  | nil => intro restLines sums _; simp [insertAll]
  | cons p ps ih =>
    intro restLines sums hwf
    have hp := hwf p (List.mem_cons_self p ps)
    have hps : ∀ q ∈ ps, wfLine q := fun q hq => hwf q (List.mem_cons_of_mem p hq)
    obtain ⟨_, _, hh, hf⟩ := hp
    have hsplit : splitOnSpaceStar (checksumLine p) = [p.1, p.2] :=
      splitOnSpaceStar_line p.1 p.2 hh hf
    have e1 : extractLoop (checksumLine p :: (ps.map checksumLine ++ restLines)) sums =
        extractLoop (ps.map checksumLine ++ restLines) (mapInsert sums p.2 p.1) := by
      simp only [extractLoop, if_neg (checksumLine_ne_nil p), hsplit]
    simp only [List.map_cons, List.cons_append, e1, ih _ _ hps]
    rfl

/-- Inserting a key that is not yet present appends the new entry. -/
theorem mapInsert_fresh :
    ∀ (m : GoMap) (k v : Bytes), k ∉ m.map Prod.fst →
      mapInsert m k v = m ++ [(k, v)] := by
  intro m
  induction m with
  | nil => intro k v _; rfl
  | cons e rest ih =>
    intro k v hk
    simp only [List.map_cons, List.mem_cons] at hk
    push_neg at hk
    have hne : e.1 ≠ k := fun hc => hk.1 hc.symm
    calc mapInsert (e :: rest) k v = e :: mapInsert rest k v := by
          rcases e with ⟨k', v'⟩
          simp only [mapInsert, if_neg hne]
      _ = (e :: rest) ++ [(k, v)] := by rw [ih k v hk.2]; rfl

/-- Folding fresh pairwise-distinct keys into a map appends them in order,
swapped to `filename ↦ hash`. -/
theorem insertAll_fresh (ps : List (Bytes × Bytes)) :
    ∀ sums : GoMap, (ps.map Prod.snd).Nodup →
      (∀ p ∈ ps, p.2 ∉ sums.map Prod.fst) →
      insertAll sums ps = sums ++ ps.map (fun p => (p.2, p.1)) := by
  induction ps with
  | nil => intro sums _ _; simp [insertAll]
  | cons p ps ih =>
    intro sums hnodup hfresh
    simp only [List.map_cons, List.nodup_cons] at hnodup
    have e1 : insertAll sums (p :: ps) = insertAll (mapInsert sums p.2 p.1) ps := rfl
    rw [e1, mapInsert_fresh sums p.2 p.1 (hfresh p (List.mem_cons_self p ps))]
    rw [ih (sums ++ [(p.2, p.1)]) hnodup.2 ?fresh]
    · simp
    case fresh =>
      intro q hq
      simp only [List.map_append, List.mem_append]
      push_neg
      refine ⟨hfresh q (List.mem_cons_of_mem p hq), ?_⟩
      simp only [List.map_cons, List.map_nil, List.mem_singleton]
      intro hc
      exact hnodup.1 (hc ▸ List.mem_map_of_mem Prod.snd hq)

/-- A non-empty line that does not split into exactly two fields on `" *"`
makes the loop fail with the malformed-file error. -/
theorem extractLoop_malformed (bad : Bytes) (rest : List Bytes) (sums : GoMap)
    (hne : bad ≠ []) (hlen : (splitOnSpaceStar bad).length ≠ 2) :
    extractLoop (bad :: rest) sums =
      Except.error "length mismatch check file format" := by
  rcases hsplit : splitOnSpaceStar bad with _ | ⟨a, _ | ⟨b, _ | ⟨c, l⟩⟩⟩
  · simp [extractLoop, hne, hsplit]
  · simp [extractLoop, hne, hsplit]
  · exact absurd (by rw [hsplit]; rfl) hlen
  · simp [extractLoop, hne, hsplit]

end Media

/-- `int64Wrap` is the identity on values already representable in
`int64`. -/
theorem int64Wrap_eq_self (x : Int) (h1 : -9223372036854775808 ≤ x)
    (h2 : x ≤ 9223372036854775807) : int64Wrap x = x := by
  unfold int64Wrap
  rw [Int.emod_eq_of_lt (by omega) (by omega)]
  omega

/-- A value accepted by `goAtoi` lies in the `int64` range (the range check
is part of `strconv.Atoi`). -/
theorem goAtoi_range (s : Bytes) (n : Int) (h : goAtoi s = some n) :
    int64Min ≤ n ∧ n ≤ int64Max := by
  unfold goAtoi at h
  split at h
  · exact absurd h (by simp)
  · split at h
    · exact absurd h (by simp)
    · rcases Option.bind_eq_some.mp h with ⟨m, _, hm⟩
      split at hm
      · exact absurd hm (by simp)
      · rename_i hle
        rw [Option.some.injEq] at hm
        subst hm
        push_neg at hle
        exact ⟨le_trans (by decide) (Int.natCast_nonneg m), hle⟩
  · split at h
    · exact absurd h (by simp)
    · rcases Option.bind_eq_some.mp h with ⟨m, _, hm⟩
      split at hm
      · exact absurd hm (by simp)
      · rename_i hge
        rw [Option.some.injEq] at hm
        subst hm
        push_neg at hge
        refine ⟨hge, le_trans ?_ (by decide : (0 : Int) ≤ int64Max)⟩
        simp
  · rcases Option.bind_eq_some.mp h with ⟨m, _, hm⟩
    split at hm
    · exact absurd hm (by simp)
    · rename_i hle
      rw [Option.some.injEq] at hm
      subst hm
      push_neg at hle
      exact ⟨le_trans (by decide) (Int.natCast_nonneg m), hle⟩

/-! ## Claim theorems -/

/-- C1: for the `VolumeGroupEntry` used by `TestGetLogicalVolumeSizes`
(VGFree `"31394365440B"`), the claim (and the unit test) expect success with
root = 10737418240 and CSI = 20120076288; the code instead computes
CSI = 31394365440 − 2·256 MiB − 10 GiB − 30 GiB = −12092178432 < 5 GiB and
returns the insufficient-capacity error.  This theorem evaluates the code at
the failing input. -/
theorem getLogicalVolumeSizes_test_input :
    Partition.GetLogicalVolumeSizes
      { Name := "rootvg", PvCount := "1", LvCount := "0", SnapCount := "0",
        VGAttribute := "wz--n-", VGSize := "31394365440B",
        VGFree := "31394365440B" } =
    Except.error
      "volumegroups: rootvg does not have enough capacity for csi storage" := by
  rfl

/-- C2 counterexample: `VGFree = "-9223372036854775808B"` parses (it is
exactly `int64Min`, accepted by `strconv.Atoi`), and the claim's formula
gives CSI = n − 2·256 MiB − 10 GiB − 30 GiB far below 5 GiB, demanding the
insufficient-capacity error — but the Go `int64` subtraction wraps to
CSI = 9223371993368231936 and the code succeeds. -/
theorem getLogicalVolumeSizes_wrap_counterexample :
    Partition.GetLogicalVolumeSizes
      { Name := "vg", PvCount := "1", LvCount := "0", SnapCount := "0",
        VGAttribute := "wz--n-", VGSize := "-9223372036854775808B",
        VGFree := "-9223372036854775808B" } =
      Except.ok (10737418240, 9223371993368231936, 32212254720) ∧
    ((-9223372036854775808 : Int) - 536870912 - 10737418240 - 32212254720 <
      5368709120) :=
  ⟨by rfl, by decide⟩

/-- C2 amended: for every `VolumeGroupEntry` whose `VGFree` parses as `n`
bytes, `GetLogicalVolumeSizes` yields root = 10 GiB, containerd = 30 GiB
and CSI = n − 2·256 MiB − root − containerd evaluated in Go `int64`
arithmetic (wrapping on underflow), failing with the
insufficient-capacity error exactly when that CSI is below 5 GiB; whenever
`n ≥ int64Min + 43486543872` no subtraction underflows and CSI is exactly
the claimed n − 2·256 MiB − root − containerd. -/
theorem getLogicalVolumeSizes_policy (e : Partition.VolumeGroupEntry) (n : Int)
    (h : goAtoi (trimSuffix e.VGFree.data Partition.lvmBytes) = some n) :
    (Partition.GetLogicalVolumeSizes e =
      (if int64Wrap (int64Wrap (int64Wrap (n - 536870912) - 10737418240) -
            32212254720) < 5368709120 then
        Except.error ("volumegroups: " ++ e.Name ++
          " does not have enough capacity for csi storage")
      else
        Except.ok (10737418240,
          int64Wrap (int64Wrap (int64Wrap (n - 536870912) - 10737418240) -
            32212254720),
          32212254720))) ∧
    (int64Min + 43486543872 ≤ n →
      Partition.GetLogicalVolumeSizes e =
        (if n - 536870912 - 10737418240 - 32212254720 < 5368709120 then
          Except.error ("volumegroups: " ++ e.Name ++
            " does not have enough capacity for csi storage")
        else
          Except.ok (10737418240, n - 536870912 - 10737418240 - 32212254720,
            32212254720))) := by
  have ha : Partition.GetLogicalVolumeSizes e =
      (if int64Wrap (int64Wrap (int64Wrap (n - 536870912) - 10737418240) -
            32212254720) < 5368709120 then
        Except.error ("volumegroups: " ++ e.Name ++
          " does not have enough capacity for csi storage")
      else
        Except.ok (10737418240,
          int64Wrap (int64Wrap (int64Wrap (n - 536870912) - 10737418240) -
            32212254720),
          32212254720)) := by
    simp only [Partition.GetLogicalVolumeSizes, Partition.byteToGibibyteFactor,
      Partition.byteToMebibyteFactor, h]
    norm_num
  refine ⟨ha, fun hn => ?_⟩
  obtain ⟨hlo, hhi⟩ := goAtoi_range _ n h
  simp only [int64Min] at hn
  simp only [int64Min, int64Max] at hlo hhi
  have w1 : int64Wrap (n - 536870912) = n - 536870912 :=
    int64Wrap_eq_self _ (by omega) (by omega)
  have w2 : int64Wrap (n - 536870912 - 10737418240) =
      n - 536870912 - 10737418240 :=
    int64Wrap_eq_self _ (by omega) (by omega)
  have w3 : int64Wrap (n - 536870912 - 10737418240 - 32212254720) =
      n - 536870912 - 10737418240 - 32212254720 :=
    int64Wrap_eq_self _ (by omega) (by omega)
  rw [ha, w1, w2, w3]

/-- Witness for C2's amended claim at VGFree = `"50000000000B"`: the parse
hypothesis holds, the value is in the no-underflow range, and the result is
success with CSI = 6513456128 (the claimed formula). -/
theorem getLogicalVolumeSizes_policy_witness :
    goAtoi (trimSuffix ("50000000000B" : String).data Partition.lvmBytes) =
      some 50000000000 ∧
    int64Min + 43486543872 ≤ (50000000000 : Int) ∧
    Partition.GetLogicalVolumeSizes
      { Name := "vg", PvCount := "1", LvCount := "0", SnapCount := "0",
        VGAttribute := "wz--n-", VGSize := "50000000000B",
        VGFree := "50000000000B" } =
    Except.ok (10737418240, 6513456128, 32212254720) := by
  refine ⟨by rfl, by decide, ?_⟩
  rw [(getLogicalVolumeSizes_policy _ 50000000000 (by rfl)).2 (by decide)]
  norm_num

/-- C4: the empty-partition-table guard of `CreateTable` succeeds exactly
when the parsed partition list is empty (Go `len`, counting a nil slice as
empty) and fails for every non-empty list; in particular it succeeds on a
present-but-empty partition list. -/
theorem createTable_empty_guard (d : String)
    (p : Option (List Partition.PartedPartition)) :
    (Partition.CreateTable d (Except.ok p) (Except.ok ()) (Except.ok ())
        (Except.ok ()) (Except.ok ()) = Except.ok () ↔ Partition.goLen p = 0)
    ∧ Partition.CreateTable d (Except.ok (some [])) (Except.ok ())
        (Except.ok ()) (Except.ok ()) (Except.ok ()) = Except.ok () := by
  constructor
  · by_cases hp : Partition.goLen p = 0
    · simp [Partition.CreateTable, hp]
    · simp [Partition.CreateTable, hp]
  · simp [Partition.CreateTable, Partition.goLen]

/-- C5: `IdempotentWrite` on an existing file whose bytes differ from the
incoming bytes leaves the concatenation of old and new content (the
`O_CREATE|O_RDWR` open never truncates and the pre-write `ReadAll` leaves
the offset at end-of-file), not the incoming bytes the claim requires; the
equal-content case does skip the write as claimed. -/
theorem idempotentWrite_appends :
    Configure.IdempotentWrite (some ['o', 'l', 'd']) ['n', 'e', 'w'] =
      ⟨['o', 'l', 'd', 'n', 'e', 'w'], true⟩ ∧
    (['o', 'l', 'd', 'n', 'e', 'w'] : Bytes) ≠ ['n', 'e', 'w'] ∧
    Configure.IdempotentWrite (some ['o', 'l', 'd']) ['o', 'l', 'd'] =
      ⟨['o', 'l', 'd'], false⟩ := by
  refine ⟨by rfl, by decide, by rfl⟩

/-- C7 counterexample: a backing file of size 0 is below the 4 GB threshold,
and `ExpandSize` truncates it to 1048576000 bytes (1000 MiB) — still below
the 4 GB minimum the claim promises. -/
theorem expandSize_below_minimum :
    Media.ExpandSize 0 = ⟨1048576000, true⟩ ∧ 1048576000 < Media.expectedSize := by
  refine ⟨by rfl, by norm_num [Media.expectedSize]⟩

/-- C7 amended: files strictly above 4 GB are returned unmodified; files at
or below 4 GB are extended by zero padding via truncation by exactly
1000 MiB (to `bufferSize + size`, not necessarily to 4 GB). -/
theorem expandSize_growth (size : Nat) :
    (Media.expectedSize < size → Media.ExpandSize size = ⟨size, false⟩) ∧
    (size ≤ Media.expectedSize →
      Media.ExpandSize size = ⟨Media.expandBuffer + size, true⟩) := by
  constructor
  · intro hgt
    simp [Media.ExpandSize, hgt]
  · intro hle
    simp [Media.ExpandSize, Nat.not_lt.mpr hle]

/-- Witness for C7's amended claim at sizes 4294967297 (above threshold) and
0 (below threshold). -/
theorem expandSize_growth_witness :
    Media.ExpandSize 4294967297 = ⟨4294967297, false⟩ ∧
    Media.ExpandSize 0 = ⟨1048576000, true⟩ :=
  ⟨(expandSize_growth 4294967297).1 (by norm_num [Media.expectedSize]),
    (expandSize_growth 0).2 (by norm_num [Media.expectedSize])⟩

/-- C9: when any of the four partition-listing steps of
`FileSystemExpansion` fails (pipe creation, start, read, wait), the function
returns success (`nil`) instead of the error — evaluated here at a concrete
failing environment for each of the four steps. -/
theorem fileSystemExpansion_swallows_listing_errors :
    (Media.FileSystemExpansion
      { pipeCreate := Except.error "broken pipe", start := Except.ok (),
        readAll := Except.ok [], wait := Except.ok (),
        datasizeParse := fun _ => Except.ok 0, resizePart := Except.ok (),
        fsCheck := Except.ok (), resizeFS := Except.ok () } = Except.ok ()) ∧
    (Media.FileSystemExpansion
      { pipeCreate := Except.ok (), start := Except.error "start failed",
        readAll := Except.ok [], wait := Except.ok (),
        datasizeParse := fun _ => Except.ok 0, resizePart := Except.ok (),
        fsCheck := Except.ok (), resizeFS := Except.ok () } = Except.ok ()) ∧
    (Media.FileSystemExpansion
      { pipeCreate := Except.ok (), start := Except.ok (),
        readAll := Except.error "read failed", wait := Except.ok (),
        datasizeParse := fun _ => Except.ok 0, resizePart := Except.ok (),
        fsCheck := Except.ok (), resizeFS := Except.ok () } = Except.ok ()) ∧
    (Media.FileSystemExpansion
      { pipeCreate := Except.ok (), start := Except.ok (),
        readAll := Except.ok [], wait := Except.error "wait failed",
        datasizeParse := fun _ => Except.ok 0, resizePart := Except.ok (),
        fsCheck := Except.ok (), resizeFS := Except.ok () } = Except.ok ()) :=
  ⟨rfl, rfl, rfl, rfl⟩

/-- C3 counterexample: the input `"aa  f\n"` — one line in the two-space
format the claim calls well-formed, plus the trailing blank line — does not
contain `" *"`, so `extractChecksum` rejects it as malformed instead of
returning a one-entry map. -/
theorem extractChecksum_two_space_rejected :
    Media.extractChecksum ['a', 'a', ' ', ' ', 'f', '\n'] =
      Except.error "length mismatch check file format" := by
  rfl

/-- C3 amended: only `<hex-digest> *<filename>` lines are well-formed.  For
N such lines (components free of newlines and of `" *"`, filenames
pairwise distinct) followed by the trailing blank line, `extractChecksum`
returns exactly the N entries `filename ↦ hash`; and an input whose lines
(before any blank line) include one that does not split into exactly two
fields on `" *"` — the two-space format included — yields the
malformed-file error. -/
theorem extractChecksum_wellformed_lines (ps : List (Bytes × Bytes))
    (bad tail : Bytes)
    (hwf : ∀ p ∈ ps, Media.wfLine p)
    (hnodup : (ps.map Prod.snd).Nodup)
    (hbadne : bad ≠ [])
    (hbadnl : '\n' ∉ bad)
    (hbadlen : (splitOnSpaceStar bad).length ≠ 2) :
    Media.extractChecksum (Media.joinChecksumLines ps) =
      Except.ok (ps.map fun p => (p.2, p.1)) ∧
    (ps.map fun p => (p.2, p.1)).length = ps.length ∧
    Media.extractChecksum
        (Media.joinChecksumLines ps ++ bad ++ '\n' :: tail) =
      Except.error "length mismatch check file format" := by
  refine ⟨?_, by simp, ?_⟩
  · unfold Media.extractChecksum
    have h1 : splitOnChar '\n' (Media.joinChecksumLines ps) =
        ps.map Media.checksumLine ++ [[]] := by
      have h0 := Media.splitOnChar_join ps [] hwf
      simpa [splitOnChar] using h0
    rw [h1, Media.extractLoop_good ps [[]] [] hwf]
    have h2 : Media.extractLoop [[]] (Media.insertAll [] ps) =
        Except.ok (Media.insertAll [] ps) := by
      simp [Media.extractLoop]
    rw [h2, Media.insertAll_fresh ps [] hnodup (by simp)]
    simp
  · unfold Media.extractChecksum
    rw [List.append_assoc,
      Media.splitOnChar_join ps (bad ++ '\n' :: tail) hwf,
      splitOnChar_append '\n' bad tail hbadnl,
      Media.extractLoop_good ps _ [] hwf]
    exact Media.extractLoop_malformed bad _ _ hbadne hbadlen

/-- Witness for C3's amended claim: one good line `"a *f"`, and the same
file with the malformed line `"x"` appended. -/
theorem extractChecksum_wellformed_lines_witness :
    Media.extractChecksum (Media.joinChecksumLines [(['a'], ['f'])]) =
      Except.ok [(['f'], ['a'])] ∧
    ([(['f'], ['a'])] : Media.GoMap).length = 1 ∧
    Media.extractChecksum
        (Media.joinChecksumLines [(['a'], ['f'])] ++ ['x'] ++ '\n' :: []) =
      Except.error "length mismatch check file format" :=
  extractChecksum_wellformed_lines [(['a'], ['f'])] ['x'] []
    (by decide) (by decide) (by decide) (by decide) (by decide)

/-- C10: `extractChecksum` stops at the first empty line: with well-formed
lines `ps`, then an empty line, then further well-formed lines `qs`, the
result holds exactly the entries of `ps` and no error is reported for the
ignored remainder. -/
theorem extractChecksum_stops_at_blank_line (ps qs : List (Bytes × Bytes))
    (hwf : ∀ p ∈ ps, Media.wfLine p)
    (hnodup : (ps.map Prod.snd).Nodup)
    (hwfq : ∀ q ∈ qs, Media.wfLine q) :
    Media.extractChecksum
        (Media.joinChecksumLines ps ++ '\n' :: Media.joinChecksumLines qs) =
      Except.ok (ps.map fun p => (p.2, p.1)) := by
  unfold Media.extractChecksum
  rw [Media.splitOnChar_join ps ('\n' :: Media.joinChecksumLines qs) hwf]
  have h1 : splitOnChar '\n' ('\n' :: Media.joinChecksumLines qs) =
      [] :: splitOnChar '\n' (Media.joinChecksumLines qs) := by
    simp [splitOnChar]
  rw [h1, Media.extractLoop_good ps _ [] hwf]
  have h2 : Media.extractLoop
      ([] :: splitOnChar '\n' (Media.joinChecksumLines qs))
      (Media.insertAll [] ps) = Except.ok (Media.insertAll [] ps) := by
    simp [Media.extractLoop]
  rw [h2, Media.insertAll_fresh ps [] hnodup (by simp)]
  simp

/-- Witness for C10: the line `"a *f"`, a blank line, then the further
well-formed line `"b *g"`; only the first entry is returned. -/
theorem extractChecksum_stops_at_blank_line_witness :
    Media.extractChecksum
        (Media.joinChecksumLines [(['a'], ['f'])] ++
          '\n' :: Media.joinChecksumLines [(['b'], ['g'])]) =
      Except.ok [(['f'], ['a'])] :=
  extractChecksum_stops_at_blank_line [(['a'], ['f'])] [(['b'], ['g'])]
    (by decide) (by decide) (by decide)

/-- C8: when both the media file and the checksum file already exist and
`forceOverwrite` is false, `DownloadAndVerifyMedia` downloads nothing and
leaves the filesystem unchanged (only verification runs). -/
theorem download_skip_when_present (hashHex : Bytes → Bytes)
    (net : String → Bytes) (fs : Media.FileSys)
    (hm : Media.fsExists fs Media.ImageName = true)
    (hc : Media.fsExists fs Media.checksumName = true) :
    (Media.DownloadAndVerifyMedia hashHex net fs false).fs = fs ∧
    (Media.DownloadAndVerifyMedia hashHex net fs false).downloaded = [] := by
  cases hmr : Media.fsRead fs Media.ImageName <;>
    cases hcr : Media.fsRead fs Media.checksumName <;>
      simp [Media.DownloadAndVerifyMedia, hm, hc, hmr, hcr]

/-- Witness for C8 on a filesystem holding both files. -/
theorem download_skip_when_present_witness :
    Media.fsExists [(Media.ImageName, ([] : Bytes)),
        (Media.checksumName, ([] : Bytes))] Media.ImageName = true ∧
    (Media.DownloadAndVerifyMedia (fun _ => []) (fun _ => [])
        [(Media.ImageName, []), (Media.checksumName, [])] false).fs =
      [(Media.ImageName, []), (Media.checksumName, [])] ∧
    (Media.DownloadAndVerifyMedia (fun _ => []) (fun _ => [])
        [(Media.ImageName, []), (Media.checksumName, [])] false).downloaded =
      [] := by
  refine ⟨by rfl, ?_, ?_⟩
  · exact (download_skip_when_present (fun _ => []) (fun _ => [])
      [(Media.ImageName, []), (Media.checksumName, [])] (by rfl) (by rfl)).1
  · exact (download_skip_when_present (fun _ => []) (fun _ => [])
      [(Media.ImageName, []), (Media.checksumName, [])] (by rfl) (by rfl)).2

/-- C6 counterexample: a session whose pre-attach resolver config is a
regular file (content `"x"`) attaches and tears down successfully, but the
resolver config afterwards is the hard-coded stub symlink, not the
pre-attach content — teardown restores from a constant, not from the
backup. -/
theorem mount_roundtrip_counterexample :
    ∃ s2 t2 s3 t3,
      Media.AttachToMountPoint []
          (Media.MountImageToDevice
            ⟨Media.FsNode.file ['x'], Media.FsNode.absent,
              false, false, false⟩).1 =
        Except.ok (s2, t2) ∧
      Media.CleanupAndCompress s2 = Except.ok (s3, t3) ∧
      s3.resolv ≠ Media.FsNode.file ['x'] :=
  ⟨⟨Media.FsNode.file [], Media.FsNode.symlink Media.stubResolvTarget,
      true, true, true⟩,
    [Media.MountAction.mountRoot, Media.MountAction.mountBoot,
      Media.MountAction.symlinkBackup, Media.MountAction.removeResolv,
      Media.MountAction.writeResolv],
    ⟨Media.FsNode.symlink Media.stubResolvTarget, Media.FsNode.absent,
      false, false, false⟩,
    [Media.MountAction.removeResolv, Media.MountAction.symlinkResolv,
      Media.MountAction.removeBackup, Media.MountAction.umountBoot,
      Media.MountAction.umountRoot, Media.MountAction.detachLoop],
    rfl, rfl, by decide⟩

/-- C6 amended: for a session starting from the stock image state (resolver
config a symlink to `../run/systemd/resolve/stub-resolv.conf`, no backup
present), teardown after attach restores the resolver config byte-identical
to its pre-attach state, leaves no mount or loop device active, and
releases resources in exactly the reverse of attach order (resolver config,
boot mount, root mount, loop device). -/
theorem mount_roundtrip_restores_stock (host : Bytes) (s : Media.GuestState)
    (hb : s.backup = Media.FsNode.absent)
    (hr : s.resolv = Media.FsNode.symlink Media.stubResolvTarget) :
    ∃ s2 t2 s3 t3,
      Media.AttachToMountPoint host (Media.MountImageToDevice s).1 =
        Except.ok (s2, t2) ∧
      Media.CleanupAndCompress s2 = Except.ok (s3, t3) ∧
      s3.resolv = s.resolv ∧
      s3.bootMounted = false ∧ s3.rootMounted = false ∧
      s3.loopAttached = false ∧
      t3.filterMap Media.releases =
        (((Media.MountImageToDevice s).2 ++ t2).filterMap
          Media.acquires).reverse := by
  obtain ⟨resolv, backup, rm, bm, la⟩ := s
  simp only at hb hr
  subst hb
  subst hr
  exact ⟨⟨Media.FsNode.file host, Media.FsNode.symlink Media.stubResolvTarget,
      true, true, true⟩,
    [Media.MountAction.mountRoot, Media.MountAction.mountBoot,
      Media.MountAction.symlinkBackup, Media.MountAction.removeResolv,
      Media.MountAction.writeResolv],
    ⟨Media.FsNode.symlink Media.stubResolvTarget, Media.FsNode.absent,
      false, false, false⟩,
    [Media.MountAction.removeResolv, Media.MountAction.symlinkResolv,
      Media.MountAction.removeBackup, Media.MountAction.umountBoot,
      Media.MountAction.umountRoot, Media.MountAction.detachLoop],
    rfl, rfl, rfl, rfl, rfl, rfl, rfl⟩

/-- Witness for C6's amended claim, from the concrete stock state. -/
theorem mount_roundtrip_restores_stock_witness :
    ∃ s2 t2 s3 t3,
      Media.AttachToMountPoint ['h']
          (Media.MountImageToDevice
            ⟨Media.FsNode.symlink Media.stubResolvTarget, Media.FsNode.absent,
              false, false, false⟩).1 =
        Except.ok (s2, t2) ∧
      Media.CleanupAndCompress s2 = Except.ok (s3, t3) ∧
      s3.resolv = (Media.GuestState.mk
        (Media.FsNode.symlink Media.stubResolvTarget) Media.FsNode.absent
        false false false).resolv ∧
      s3.bootMounted = false ∧ s3.rootMounted = false ∧
      s3.loopAttached = false ∧
      t3.filterMap Media.releases =
        (((Media.MountImageToDevice
            ⟨Media.FsNode.symlink Media.stubResolvTarget, Media.FsNode.absent,
              false, false, false⟩).2 ++ t2).filterMap
          Media.acquires).reverse :=
  mount_roundtrip_restores_stock ['h']
    ⟨Media.FsNode.symlink Media.stubResolvTarget, Media.FsNode.absent,
      false, false, false⟩ rfl rfl

end PiImage
